/-
Verification of the hexagon-keyed aggregation / join / train / predict
pipeline of the cost-of-living notebook.

The embedding mirrors the notebook cell by cell:
* the chunked mobility aggregation loop (`hex_features`),
* the left merge with `fillna(0)` (`joinRow`, `joinTable`, `joinTestRow`),
* the column reindexing before inference (`reindexTable`),
* the train/evaluate flow and the submission construction (`trainerEvaluator`,
  `predictTest`).

The H3 indexer is an external black box; it enters as an abstract function
argument `indexer lat lon res`, exactly as `h3.latlng_to_cell` does in the
loop body.  Numeric columns are modelled as exact rationals.
-/
import Mathlib

set_option linter.unusedVariables false

/-- One row of `mobility_data.parquet`: device identifier, coordinates and
Unix timestamp.  Coordinates are only ever passed to the external indexer. -/
structure MobilityRecord where
  device_id : String
  lat : ℚ
  lon : ℚ
  timestamp : ℤ
deriving DecidableEq, Repr

/-- The value stored in `hex_features[hex_id]`: the triple
`[device_count, visit_count, avg_time]` produced by the per-chunk groupby. -/
structure CellFeat where
  device_count : ℕ
  visit_count : ℕ
  avg_time : ℚ
deriving DecidableEq, Repr

/-- `chunk_df["hex_id"] = h3.latlng_to_cell(row["lat"], row["lon"], desired_resolution)`
with the indexer kept abstract. -/
def hexOf (indexer : ℚ → ℚ → ℕ → String) (res : ℕ) (r : MobilityRecord) : String :=
  indexer r.lat r.lon res

/-- The records of one chunk that fall into cell `c` (the groupby group of `c`). -/
def batchRecords (indexer : ℚ → ℚ → ℕ → String) (res : ℕ)
    (batch : List MobilityRecord) (c : String) : List MobilityRecord :=
  batch.filter (fun r => hexOf indexer res r = c)

/-- The aggregation row for cell `c` in one chunk:
`device_count = nunique(device_id)`, `visit_count = count(device_id)`,
`avg_time = mean(timestamp)`. -/
def batchFeat (indexer : ℚ → ℚ → ℕ → String) (res : ℕ)
    (batch : List MobilityRecord) (c : String) : CellFeat :=
  let rs := batchRecords indexer res batch c
  { device_count := (rs.map (·.device_id)).dedup.length
    visit_count := rs.length
    avg_time := ((rs.map (fun r => (r.timestamp : ℚ))).sum) / (rs.length : ℚ) }

/-- `hex_features[hex_id] += row[1:].values`: componentwise addition of the
three aggregated columns. -/
def addFeat (f g : CellFeat) : CellFeat :=
  { device_count := f.device_count + g.device_count
    visit_count := f.visit_count + g.visit_count
    avg_time := f.avg_time + g.avg_time }

/-- The running dictionary `hex_features`, keyed by hex identifier. -/
def FeatMap : Type := String → Option CellFeat

/-- Processing one chunk: every cell present in the chunk is inserted into the
dictionary if new, otherwise its stored triple is incremented; untouched cells
keep their entry. -/
def aggStep (indexer : ℚ → ℚ → ℕ → String) (res : ℕ)
    (m : FeatMap) (batch : List MobilityRecord) : FeatMap :=
  fun c =>
    if batchRecords indexer res batch c = [] then m c
    else
      match m c with
      | none => some (batchFeat indexer res batch c)
      | some f => some (addFeat f (batchFeat indexer res batch c))

/-- The whole chunked aggregation loop: start from the empty dictionary and
fold `aggStep` over the batches in order. -/
def hex_features (indexer : ℚ → ℚ → ℕ → String) (res : ℕ)
    (batches : List (List MobilityRecord)) : FeatMap :=
  batches.foldl (aggStep indexer res) (fun _ => none)

/-- The `visit_count` stored for `c`, read as a plain number (0 when absent). -/
def visitOf (o : Option CellFeat) : ℕ :=
  (o.map (·.visit_count)).getD 0

/-- The `device_count` stored for `c`, read as a plain number (0 when absent). -/
def devOf (o : Option CellFeat) : ℕ :=
  (o.map (·.device_count)).getD 0

-- scratch sanity checks
example :
    (hex_features (fun _ _ _ => "h1") 8 [[⟨"d1", 0, 0, 5⟩, ⟨"d2", 0, 0, 7⟩]] "h1").map
      (·.visit_count) = some 2 := by decide

example :
    devOf (hex_features (fun _ _ _ => "h1") 8 [[⟨"d1", 0, 0, 5⟩], [⟨"d1", 0, 0, 7⟩]] "h1")
      = 2 := by decide

example :
    (hex_features (fun _ _ _ => "h1") 8 [[⟨"d1", 0, 0, 5⟩], [⟨"d1", 0, 0, 7⟩]] "h1").map
      (·.avg_time) = some 12 := by
  simp [hex_features, aggStep, batchFeat, batchRecords, hexOf, List.filter, List.dedup]
  norm_num [addFeat]

/-! ### Aggregator lemmas -/

theorem visitOf_aggStep (indexer : ℚ → ℚ → ℕ → String) (res : ℕ)
    (m : FeatMap) (b : List MobilityRecord) (c : String) :
    visitOf (aggStep indexer res m b c)
      = visitOf (m c) + (batchRecords indexer res b c).length := by
  unfold aggStep
  by_cases hb : batchRecords indexer res b c = []
  · simp [hb]
  · cases hm : m c <;>
      simp [hb, hm, visitOf, batchFeat, addFeat]

theorem visitOf_foldl (indexer : ℚ → ℚ → ℕ → String) (res : ℕ) :
    ∀ (bs : List (List MobilityRecord)) (m : FeatMap) (c : String),
      visitOf (bs.foldl (aggStep indexer res) m c)
        = visitOf (m c) + (batchRecords indexer res bs.flatten c).length := by
  intro bs
  induction bs with
  | nil => intro m c; simp [batchRecords]
  | cons b bs ih =>
      intro m c
      have h1 := ih (aggStep indexer res m b) c
      have h2 := visitOf_aggStep indexer res m b c
      simp only [List.foldl_cons, List.flatten_cons] at *
      rw [h1, h2]
      simp [batchRecords, List.filter_append]
      omega

theorem isSome_aggStep (indexer : ℚ → ℚ → ℕ → String) (res : ℕ)
    (m : FeatMap) (b : List MobilityRecord) (c : String) :
    (aggStep indexer res m b c).isSome
      ↔ (m c).isSome ∨ batchRecords indexer res b c ≠ [] := by
  unfold aggStep
  by_cases hb : batchRecords indexer res b c = []
  · simp [hb]
  · cases hm : m c <;> simp [hb, hm]

theorem isSome_foldl (indexer : ℚ → ℚ → ℕ → String) (res : ℕ) :
    ∀ (bs : List (List MobilityRecord)) (m : FeatMap) (c : String),
      (bs.foldl (aggStep indexer res) m c).isSome
        ↔ (m c).isSome ∨ batchRecords indexer res bs.flatten c ≠ [] := by
  intro bs
  induction bs with
  | nil => intro m c; simp [batchRecords]
  | cons b bs ih =>
      intro m c
      rw [List.foldl_cons, ih (aggStep indexer res m b) c,
        isSome_aggStep indexer res m b c]
      simp only [List.flatten_cons, batchRecords, List.filter_append, ne_eq,
        List.append_eq_nil]
      tauto

theorem visitOf_hex_features (indexer : ℚ → ℚ → ℕ → String) (res : ℕ)
    (bs : List (List MobilityRecord)) (c : String) :
    visitOf (hex_features indexer res bs c)
      = (batchRecords indexer res bs.flatten c).length := by
  have h := visitOf_foldl indexer res bs (fun _ => none) c
  simpa [hex_features, visitOf] using h

theorem isSome_hex_features (indexer : ℚ → ℚ → ℕ → String) (res : ℕ)
    (bs : List (List MobilityRecord)) (c : String) :
    (hex_features indexer res bs c).isSome
      ↔ batchRecords indexer res bs.flatten c ≠ [] := by
  have h := isSome_foldl indexer res bs (fun _ => none) c
  simpa [hex_features] using h

/-- The invariant of one stored feature triple. -/
def featInv (f : CellFeat) : Prop :=
  1 ≤ f.device_count ∧ 1 ≤ f.visit_count ∧ f.device_count ≤ f.visit_count

theorem batchFeat_inv (indexer : ℚ → ℚ → ℕ → String) (res : ℕ)
    (b : List MobilityRecord) (c : String)
    (h : batchRecords indexer res b c ≠ []) :
    featInv (batchFeat indexer res b c) := by
  unfold featInv batchFeat
  obtain ⟨r, hr⟩ := List.exists_mem_of_ne_nil _ h
  refine ⟨?_, ?_, ?_⟩
  · have hm : r.device_id ∈ ((batchRecords indexer res b c).map (·.device_id)).dedup := by
      rw [List.mem_dedup]
      exact List.mem_map_of_mem _ hr
    have := List.ne_nil_of_mem hm
    simpa [Nat.one_le_iff_ne_zero, List.length_eq_zero] using this
  · have := List.ne_nil_of_mem hr
    simpa [Nat.one_le_iff_ne_zero, List.length_eq_zero] using this
  · have hsub := (List.dedup_sublist ((batchRecords indexer res b c).map (·.device_id))).length_le
    simpa using hsub

theorem addFeat_inv (f g : CellFeat) (hf : featInv f) (hg : featInv g) :
    featInv (addFeat f g) := by
  simp only [featInv, addFeat] at hf hg ⊢
  omega

theorem aggStep_inv (indexer : ℚ → ℚ → ℕ → String) (res : ℕ)
    (m : FeatMap) (b : List MobilityRecord)
    (hm : ∀ c f, m c = some f → featInv f) :
    ∀ c f, aggStep indexer res m b c = some f → featInv f := by
  intro c f hf
  unfold aggStep at hf
  by_cases hb : batchRecords indexer res b c = []
  · rw [if_pos hb] at hf
    exact hm c f hf
  · rw [if_neg hb] at hf
    cases hmc : m c with
    | none =>
        rw [hmc] at hf
        cases hf
        exact batchFeat_inv indexer res b c hb
    | some g =>
        rw [hmc] at hf
        cases hf
        exact addFeat_inv _ _ (hm c g hmc) (batchFeat_inv indexer res b c hb)

theorem foldl_inv (indexer : ℚ → ℚ → ℕ → String) (res : ℕ) :
    ∀ (bs : List (List MobilityRecord)) (m : FeatMap),
      (∀ c f, m c = some f → featInv f) →
      ∀ c f, bs.foldl (aggStep indexer res) m c = some f → featInv f := by
  intro bs
  induction bs with
  | nil => intro m hm; exact hm
  | cons b bs ih =>
      intro m hm
      exact ih _ (aggStep_inv indexer res m b hm)

/-! ### Claims about the Streaming Aggregator -/

/-- C1: for two partitionings of the same mobility dataset into batches, the
aggregation loop produces the identical cell-to-`visit_count` mapping, because
per-batch record counts are merged by addition. -/
theorem c1_batch_partition_independence (indexer : ℚ → ℚ → ℕ → String) (res : ℕ)
    (bs1 bs2 : List (List MobilityRecord)) (h : bs1.flatten = bs2.flatten)
    (c : String) :
    (hex_features indexer res bs1 c).map (·.visit_count)
      = (hex_features indexer res bs2 c).map (·.visit_count) := by
  have k1 := isSome_hex_features indexer res bs1 c
  have k2 := isSome_hex_features indexer res bs2 c
  have v1 := visitOf_hex_features indexer res bs1 c
  have v2 := visitOf_hex_features indexer res bs2 c
  rw [h] at k1 v1
  cases e1 : hex_features indexer res bs1 c with
  | none =>
      cases e2 : hex_features indexer res bs2 c with
      | none => rfl
      | some g =>
          rw [e1] at k1
          rw [e2] at k2
          simp at k1 k2
          exact absurd k1 k2
  | some f =>
      cases e2 : hex_features indexer res bs2 c with
      | none =>
          rw [e1] at k1
          rw [e2] at k2
          simp at k1 k2
          exact absurd k2 k1
      | some g =>
          rw [e1] at v1
          rw [e2] at v2
          simp [visitOf] at v1 v2
          simp [v1, v2]

theorem c1_witness :
    (hex_features (fun _ _ _ => "h1") 8
        [[⟨"d1", 0, 0, 5⟩, ⟨"d2", 0, 0, 7⟩], [⟨"d3", 0, 0, 9⟩]] "h1").map (·.visit_count)
      = (hex_features (fun _ _ _ => "h1") 8
        [[⟨"d1", 0, 0, 5⟩], [⟨"d2", 0, 0, 7⟩, ⟨"d3", 0, 0, 9⟩]] "h1").map (·.visit_count) :=
  c1_batch_partition_independence (fun _ _ _ => "h1") 8
    [[⟨"d1", 0, 0, 5⟩, ⟨"d2", 0, 0, 7⟩], [⟨"d3", 0, 0, 9⟩]]
    [[⟨"d1", 0, 0, 5⟩], [⟨"d2", 0, 0, 7⟩, ⟨"d3", 0, 0, 9⟩]] rfl "h1"

/-- C9: the key set of the final mapping is exactly the set of cells some
record of some batch maps to at the fixed resolution. -/
theorem c9_aggregate_key_coverage (indexer : ℚ → ℚ → ℕ → String) (res : ℕ)
    (bs : List (List MobilityRecord)) (c : String) :
    (hex_features indexer res bs c).isSome
      ↔ ∃ b ∈ bs, ∃ r ∈ b, hexOf indexer res r = c := by
  rw [isSome_hex_features]
  constructor
  · intro hne
    obtain ⟨r, hr⟩ := List.exists_mem_of_ne_nil _ hne
    obtain ⟨hrf, hp⟩ := List.mem_filter.mp hr
    obtain ⟨b, hb, hrb⟩ := List.mem_flatten.mp hrf
    exact ⟨b, hb, r, hrb, by simpa using hp⟩
  · rintro ⟨b, hb, r, hrb, hc⟩
    exact List.ne_nil_of_mem
      (List.mem_filter.mpr ⟨List.mem_flatten.mpr ⟨b, hb, hrb⟩, by simpa using hc⟩)

theorem c9_witness :
    (hex_features (fun _ _ _ => "h1") 8 [[⟨"d1", 0, 0, 5⟩]] "h1").isSome :=
  (c9_aggregate_key_coverage (fun _ _ _ => "h1") 8 [[⟨"d1", 0, 0, 5⟩]] "h1").mpr
    ⟨[⟨"d1", 0, 0, 5⟩], by simp, ⟨"d1", 0, 0, 5⟩, by simp, rfl⟩

/-- C10: every cell present after any prefix of batches satisfies
`1 ≤ device_count`, `1 ≤ visit_count` and `device_count ≤ visit_count`. -/
theorem c10_aggregate_invariant (indexer : ℚ → ℚ → ℕ → String) (res : ℕ)
    (bs : List (List MobilityRecord)) (c : String)
    (h : (hex_features indexer res bs c).isSome = true) :
    1 ≤ devOf (hex_features indexer res bs c) ∧
    1 ≤ visitOf (hex_features indexer res bs c) ∧
    devOf (hex_features indexer res bs c) ≤ visitOf (hex_features indexer res bs c) := by
  cases e : hex_features indexer res bs c with
  | none => rw [e] at h; cases h
  | some f =>
      have hf := foldl_inv indexer res bs (fun _ => none)
        (fun _ g hg => Option.noConfusion hg) c f e
      simpa [devOf, visitOf, featInv] using hf

theorem c10_witness :
    1 ≤ devOf (hex_features (fun _ _ _ => "h1") 8 [[⟨"d1", 0, 0, 5⟩]] "h1") ∧
    1 ≤ visitOf (hex_features (fun _ _ _ => "h1") 8 [[⟨"d1", 0, 0, 5⟩]] "h1") ∧
    devOf (hex_features (fun _ _ _ => "h1") 8 [[⟨"d1", 0, 0, 5⟩]] "h1")
      ≤ visitOf (hex_features (fun _ _ _ => "h1") 8 [[⟨"d1", 0, 0, 5⟩]] "h1") :=
  c10_aggregate_invariant (fun _ _ _ => "h1") 8 [[⟨"d1", 0, 0, 5⟩]] "h1" (by decide)

/-! ### Feature Joiner

`train.merge(mobility_features_df, on="hex_id", how="left").fillna(0)`
(and the identical line for `test`).  The right-hand side of the merge is the
dictionary `hex_features` itself (its keys are unique), so a left merge gives
exactly one output row per input row, carrying the three feature columns when
the key is present and missing values otherwise; `fillna(0)` then replaces
every missing value in the whole merged frame — the appended feature columns
and any pre-existing column alike — by zero. -/

/-- A row of the tabular input: the `hex_id` key column plus the remaining
columns, each either a value or missing. -/
structure InputRow where
  hex_id : String
  other : List (Option ℚ)
deriving DecidableEq, Repr

/-- A merged-and-filled row: no missing values remain anywhere. -/
structure JoinedRow where
  hex_id : String
  other : List ℚ
  device_count : ℚ
  visit_count : ℚ
  avg_time : ℚ
deriving DecidableEq, Repr

/-- `fillna(0)` on one cell. -/
def fillna (o : Option ℚ) : ℚ :=
  o.getD 0

/-- One row of `merge(..., how="left").fillna(0)`. -/
def joinRow (m : FeatMap) (r : InputRow) : JoinedRow :=
  match m r.hex_id with
  | none =>
      { hex_id := r.hex_id, other := r.other.map fillna
        device_count := 0, visit_count := 0, avg_time := 0 }
  | some f =>
      { hex_id := r.hex_id, other := r.other.map fillna
        device_count := (f.device_count : ℚ), visit_count := (f.visit_count : ℚ)
        avg_time := f.avg_time }

/-- The whole left merge: one output row per input row, in order. -/
def joinTable (m : FeatMap) (t : List InputRow) : List JoinedRow :=
  t.map (joinRow m)

/-! ### Claims about the Feature Joiner -/

/-- C4: the left merge keeps exactly one row per input row — nothing is
dropped and nothing is duplicated, so the lengths agree. -/
theorem c4_join_preserves_length (m : FeatMap) (t : List InputRow) :
    (joinTable m t).length = t.length := by
  simp [joinTable]

/-- C2 as stated is false: `fillna(0)` runs over the whole merged frame, so a
pre-existing column that is missing in the input row comes out as `0`, not
unchanged.  Concretely, a row keyed by a cell absent from the mapping whose
single pre-existing column is missing is rewritten to `0`. -/
theorem c2_counterexample_fillna_overwrites :
    (joinRow (fun _ => none) ⟨"h1", [none]⟩).other.map some ≠ [(none : Option ℚ)] ∧
    (joinRow (fun _ => none) ⟨"h1", [none]⟩).other = [0] := by
  constructor
  · simp [joinRow, fillna]
  · simp [joinRow, fillna]

/-- C2 (amended): for a row whose cell identifier is absent from the mapping,
the appended feature columns are exactly zero, the key column is unchanged,
and every pre-existing column is unchanged when its input value is present and
is filled with zero when it is missing (`fillna(0)` applies to the whole
frame). -/
theorem c2_absent_cell_zero_fill (m : FeatMap) (r : InputRow)
    (h : m r.hex_id = none) :
    (joinRow m r).device_count = 0 ∧
    (joinRow m r).visit_count = 0 ∧
    (joinRow m r).avg_time = 0 ∧
    (joinRow m r).hex_id = r.hex_id ∧
    (joinRow m r).other = r.other.map fillna := by
  simp [joinRow, h]

theorem c2_witness :
    (joinRow (fun _ => none) ⟨"h3", [some (4/5)]⟩).device_count = 0 ∧
    (joinRow (fun _ => none) ⟨"h3", [some (4/5)]⟩).visit_count = 0 ∧
    (joinRow (fun _ => none) ⟨"h3", [some (4/5)]⟩).avg_time = 0 ∧
    (joinRow (fun _ => none) ⟨"h3", [some (4/5)]⟩).hex_id = "h3" ∧
    (joinRow (fun _ => none) ⟨"h3", [some (4/5)]⟩).other = [some (4/5)].map fillna :=
  c2_absent_cell_zero_fill (fun _ => none) ⟨"h3", [some (4/5)]⟩ rfl

/-! ### Column alignment

`test_X = test_merged.drop(columns=["hex_id"], errors='ignore')`
`test_X = test_X.reindex(columns=X_train.columns, fill_value=0)`

A numeric frame is a column-name list plus one value list per row; `reindex`
rebuilds every row in the order of the requested columns, taking the value
under the (first) matching old column and `fill_value = 0` for a requested
column the frame does not have. -/

/-- A purely numeric frame: named columns and one aligned value list per row. -/
structure Table where
  cols : List String
  rows : List (List ℚ)
deriving DecidableEq, Repr

/-- One row rebuilt by `reindex(columns=newCols, fill_value=0)`. -/
def reindexRow (oldCols newCols : List String) (row : List ℚ) : List ℚ :=
  newCols.map (fun c => ((oldCols.zip row).lookup c).getD 0)

/-- `reindex(columns=newCols, fill_value=0)` on a whole frame. -/
def reindexTable (t : Table) (newCols : List String) : Table :=
  { cols := newCols, rows := t.rows.map (reindexRow t.cols newCols) }

/-- `X_train.columns`: the training feature columns after dropping
`cost_of_living` and `hex_id` from the merged training frame. -/
def X_train_cols : List String :=
  ["device_count", "visit_count", "avg_time"]

theorem lookup_zip_eq_none {cols : List String} {row : List ℚ} {c : String}
    (h : c ∉ cols) : (cols.zip row).lookup c = none := by
  induction cols generalizing row with
  | nil => simp
  | cons a as ih =>
      cases row with
      | nil => simp
      | cons v vs =>
          have hne : c ≠ a := fun hc => h (hc ▸ List.mem_cons_self a as)
          have hna : c ∉ as := fun hc => h (List.mem_cons_of_mem a hc)
          have hhead : ((a, v) :: as.zip vs).lookup c = (as.zip vs).lookup c := by
            simp [List.lookup, beq_false_of_ne hne]
          rw [List.zip_cons_cons, hhead]
          exact ih hna

theorem lookup_zip_map {cols : List String} (g : String → ℚ) {c : String}
    (h : c ∈ cols) :
    (cols.zip (cols.map g)).lookup c = some (g c) := by
  induction cols with
  | nil => cases h
  | cons a as ih =>
      by_cases hc : c = a
      · subst hc
        rw [List.map_cons, List.zip_cons_cons]
        simp [List.lookup]
      · have hmem : c ∈ as := (List.mem_cons.mp h).resolve_left hc
        have hhead : ((a, g a) :: as.zip (as.map g)).lookup c
            = (as.zip (as.map g)).lookup c := by
          simp [List.lookup, beq_false_of_ne hc]
        rw [List.map_cons, List.zip_cons_cons, hhead]
        exact ih hmem

theorem reindexRow_self (cols : List String) (row : List ℚ)
    (hnd : cols.Nodup) (hlen : row.length = cols.length) :
    reindexRow cols cols row = row := by
  induction cols generalizing row with
  | nil =>
      have hr : row = [] := by simpa using hlen
      simp [hr, reindexRow]
  | cons a as ih =>
      cases row with
      | nil => simp at hlen
      | cons v vs =>
          obtain ⟨hna, hnd'⟩ := List.nodup_cons.mp hnd
          have hlen' : vs.length = as.length := by simpa using hlen
          unfold reindexRow
          rw [List.zip_cons_cons, List.map_cons]
          congr 1
          · simp [List.lookup]
          · have htail : ∀ c ∈ as,
                ((((a, v) :: as.zip vs).lookup c).getD 0)
                  = (((as.zip vs).lookup c).getD 0) := by
              intro c hc
              have hne : c ≠ a := fun h => hna (h ▸ hc)
              simp [List.lookup, beq_false_of_ne hne]
            rw [List.map_congr_left htail]
            exact ih vs hnd' hlen'

/-! ### Claims about column alignment -/

/-- C6: the reindexing step aligns the prediction feature frame to exactly the
training feature columns: the output columns equal `X_train.columns` in set and
order (so no column the model was never trained on survives), and every
training column missing from the prediction frame comes out as a zero-filled
column. -/
theorem c6_reindex_alignment (t : Table) :
    (reindexTable t X_train_cols).cols = X_train_cols ∧
    (∀ c, c ∈ (reindexTable t X_train_cols).cols → c ∈ X_train_cols) ∧
    (∀ row, row ∈ t.rows → ∀ c, c ∈ X_train_cols → c ∉ t.cols →
      (X_train_cols.zip (reindexRow t.cols X_train_cols row)).lookup c = some 0) := by
  refine ⟨rfl, fun c hc => hc, ?_⟩
  intro row hrow c hc hnc
  unfold reindexRow
  rw [lookup_zip_map (fun c => ((t.cols.zip row).lookup c).getD 0) hc,
    lookup_zip_eq_none hnc]
  rfl

theorem c6_witness :
    (reindexTable ⟨["cost_of_living"], [[(1/2 : ℚ)]]⟩ X_train_cols).cols
        = X_train_cols ∧
    (X_train_cols.zip
        (reindexRow ["cost_of_living"] X_train_cols [(1/2 : ℚ)])).lookup
        "device_count" = some 0 :=
  ⟨(c6_reindex_alignment ⟨["cost_of_living"], [[(1/2 : ℚ)]]⟩).1,
    (c6_reindex_alignment ⟨["cost_of_living"], [[(1/2 : ℚ)]]⟩).2.2
      [(1/2 : ℚ)] (by simp) "device_count" (by simp [X_train_cols]) (by simp)⟩

/-- C8: reindexing to the training feature columns is idempotent — a frame
whose columns already are `X_train.columns` (with well-formed rows) is
returned unchanged. -/
theorem c8_reindex_idempotent (t : Table) (hcols : t.cols = X_train_cols)
    (hlen : ∀ row ∈ t.rows, row.length = t.cols.length) :
    reindexTable t X_train_cols = t := by
  obtain ⟨cols, rows⟩ := t
  simp only at hcols
  subst hcols
  unfold reindexTable
  simp only [Table.mk.injEq, true_and]
  have hnd : X_train_cols.Nodup := by decide
  have : ∀ row ∈ rows, reindexRow X_train_cols X_train_cols row = row := by
    intro row hrow
    exact reindexRow_self X_train_cols row hnd (hlen row hrow)
  rw [List.map_congr_left this]
  exact List.map_id' rows

theorem c8_witness :
    reindexTable ⟨X_train_cols, [[(3 : ℚ), 5, 9]]⟩ X_train_cols
      = ⟨X_train_cols, [[(3 : ℚ), 5, 9]]⟩ :=
  c8_reindex_idempotent ⟨X_train_cols, [[(3 : ℚ), 5, 9]]⟩ rfl
    (by intro row hrow; simp at hrow; simp [hrow, X_train_cols])

/-! ### Predictor

`test_merged = test.merge(mobility_features_df, on="hex_id", how="left").fillna(0)`
`test_X = test_merged.drop(columns=["hex_id"], errors='ignore')`
`test_X = test_X.reindex(columns=X_train.columns, fill_value=0)`
`test["cost_of_living"] = model_rf.predict(test_X)`

The fitted regressor is opaque; it enters as a function from one feature row
to one scalar, applied rowwise as `predict` is. -/

/-- A row of `test.csv`: `hex_id` plus the (empty) `cost_of_living` column. -/
structure TestRow where
  hex_id : String
  cost_of_living : Option ℚ
deriving DecidableEq, Repr

/-- A row of `test_merged`, after `fillna(0)`. -/
structure JoinedTestRow where
  hex_id : String
  cost_of_living : ℚ
  device_count : ℚ
  visit_count : ℚ
  avg_time : ℚ
deriving DecidableEq, Repr

/-- The `test` merge line, specialized to the `test.csv` schema. -/
def joinTestRow (m : FeatMap) (r : TestRow) : JoinedTestRow :=
  match m r.hex_id with
  | none =>
      { hex_id := r.hex_id, cost_of_living := fillna r.cost_of_living
        device_count := 0, visit_count := 0, avg_time := 0 }
  | some f =>
      { hex_id := r.hex_id, cost_of_living := fillna r.cost_of_living
        device_count := (f.device_count : ℚ), visit_count := (f.visit_count : ℚ)
        avg_time := f.avg_time }

/-- A row of the submission frame: `hex_id` with the filled target. -/
structure SubmissionRow where
  hex_id : String
  cost_of_living : ℚ
deriving DecidableEq, Repr

/-- The whole prediction flow: merge, drop `hex_id`, reindex to
`X_train.columns`, predict rowwise, and write the predictions back onto the
original `test` rows. -/
def predictTest (model : List ℚ → ℚ) (m : FeatMap) (test : List TestRow) :
    List SubmissionRow :=
  let test_merged := test.map (joinTestRow m)
  let test_X : Table :=
    { cols := ["cost_of_living", "device_count", "visit_count", "avg_time"]
      rows := test_merged.map
        (fun j => [j.cost_of_living, j.device_count, j.visit_count, j.avg_time]) }
  let aligned := reindexTable test_X X_train_cols
  let preds := aligned.rows.map model
  List.zipWith (fun r p => SubmissionRow.mk r.hex_id p) test preds

theorem zipWith_mk_hex :
    ∀ (ts : List TestRow) (ps : List ℚ), ts.length = ps.length →
      (List.zipWith (fun r p => SubmissionRow.mk r.hex_id p) ts ps).map
          SubmissionRow.hex_id
        = ts.map TestRow.hex_id := by
  intro ts
  induction ts with
  | nil => intro ps h; simp
  | cons t ts ih =>
      intro ps h
      cases ps with
      | nil => simp at h
      | cons p ps =>
          have h' : ts.length = ps.length := by simpa using h
          simp [ih ps h']

/-! ### Claim about the Predictor -/

/-- C5: the submission frame has exactly the rows of the unlabeled input, in
order, with the non-target column (`hex_id`) unchanged; only the target column
is filled. -/
theorem c5_predictor_preserves_input (model : List ℚ → ℚ) (m : FeatMap)
    (test : List TestRow) :
    (predictTest model m test).length = test.length ∧
    (predictTest model m test).map SubmissionRow.hex_id
      = test.map TestRow.hex_id := by
  have hlen : ∀ (ps : List ℚ), ps.length = test.length →
      (List.zipWith (fun r p => SubmissionRow.mk r.hex_id p) test ps).length
        = test.length := by
    intro ps h
    simp [List.length_zipWith, h]
  constructor
  · simp [predictTest, reindexTable, List.length_zipWith]
  · apply zipWith_mk_hex
    simp [predictTest, reindexTable]

/-! ### Regression Trainer / Evaluator

`X = train_merged.drop(columns=["cost_of_living", "hex_id"])`
`y = train_merged["cost_of_living"]`
`X_train, X_val, y_train, y_val = train_test_split(X, y, test_size=0.2, random_state=42)`
`model_rf = RandomForestRegressor(n_estimators=100, random_state=42)`
`model_rf.fit(X_train, y_train); y_pred = model_rf.predict(X_val)`
`mse_rf = mean_squared_error(y_val, y_pred)`

`train_test_split` and the regressors are external library calls; they are
modelled from the spec as functions of the data together with the resolved
seed, which is the explicit `random_state` when one is given and otherwise an
ambient entropy draw.  The algorithm argument covers both regressor choices
and their hyperparameters. -/

/-- One tabular cell as the trainer sees it: numeric, non-numeric text, or
missing (`NaN`). -/
inductive CellValue
  | num (q : ℚ)
  | str (s : String)
  | missing
deriving DecidableEq, Repr

/-- Whether a cell holds a number. -/
def CellValue.isNumeric : CellValue → Bool
  | num _ => true
  | _ => false

/-- Whether a cell is missing (`NaN`). -/
def CellValue.isMissing : CellValue → Bool
  | missing => true
  | _ => false

/-- The numeric content of a cell (only read once validation has passed). -/
def CellValue.toNum : CellValue → ℚ
  | num q => q
  | _ => 0

/-- One row of the joined training table: feature cells and the target cell. -/
structure RawTrainRow where
  features : List CellValue
  target : CellValue
deriving DecidableEq, Repr

/-- The fatal schema failures of the training stage. -/
inductive TrainError
  | nonNumericFeature
  | missingTarget
deriving DecidableEq, Repr

/-- `mean_squared_error(y_val, y_pred)`: the mean of squared differences. -/
def mean_squared_error (yTrue yPred : List ℚ) : ℚ :=
  ((yTrue.zip yPred).map (fun p => (p.1 - p.2) ^ 2)).sum / (yTrue.length : ℚ)

/-- Modelled from the spec: the external `train_test_split` / regressor pair
(`fit`/`predict`) is not part of this repository; following §4.3 and §7 it is
modelled as (1) a schema validation that aborts before any fitting when a
feature cell is non-numeric or a target cell is missing, and (2) otherwise a
deterministic function of the data and the resolved seed.  `split seed
testSize n` yields the train/validation index lists; `alg Xtr ytr seed Xval`
fits on the training partition and predicts on the validation features; the
`random_state` argument is used when given, otherwise the ambient `entropy`
draw takes its place. -/
def trainerEvaluator
    (split : ℕ → ℚ → ℕ → List ℕ × List ℕ)
    (alg : List (List ℚ) → List ℚ → ℕ → List (List ℚ) → List ℚ)
    (rows : List RawTrainRow) (testSize : ℚ)
    (randomState : Option ℕ) (entropy : ℕ) :
    Except TrainError ℚ :=
  if rows.any (fun r => r.features.any (fun v => !v.isNumeric)) then
    Except.error TrainError.nonNumericFeature
  else if rows.any (fun r => r.target.isMissing) then
    Except.error TrainError.missingTarget
  else
    let X := rows.map (fun r => r.features.map CellValue.toNum)
    let y := rows.map (fun r => r.target.toNum)
    let seed := randomState.getD entropy
    let idx := split seed testSize rows.length
    let Xtr := idx.1.filterMap (fun i => X[i]?)
    let ytr := idx.1.filterMap (fun i => y[i]?)
    let Xval := idx.2.filterMap (fun i => X[i]?)
    let yval := idx.2.filterMap (fun i => y[i]?)
    let yPred := alg Xtr ytr seed Xval
    Except.ok (mean_squared_error yval yPred)

/-- The training run as the notebook performs it:
`test_size=0.2`, `random_state=42` for both the split and the regressor. -/
def run_training
    (split : ℕ → ℚ → ℕ → List ℕ × List ℕ)
    (alg : List (List ℚ) → List ℚ → ℕ → List (List ℚ) → List ℚ)
    (rows : List RawTrainRow) (entropy : ℕ) :
    Except TrainError ℚ :=
  trainerEvaluator split alg rows (1 / 5) (some 42) entropy

/-! ### Claims about the Trainer / Evaluator -/

/-- C3: on a joined training table with a non-numeric feature cell or a
missing target cell the training stage fails with a schema error and never
reaches the fitting step. -/
theorem c3_trainer_rejects_invalid
    (split : ℕ → ℚ → ℕ → List ℕ × List ℕ)
    (alg : List (List ℚ) → List ℚ → ℕ → List (List ℚ) → List ℚ)
    (rows : List RawTrainRow) (testSize : ℚ)
    (randomState : Option ℕ) (entropy : ℕ)
    (h : rows.any (fun r => r.features.any (fun v => !v.isNumeric)) = true ∨
      rows.any (fun r => r.target.isMissing) = true) :
    ∃ e, trainerEvaluator split alg rows testSize randomState entropy
      = Except.error e := by
  rcases h with h | h
  · exact ⟨TrainError.nonNumericFeature, by simp [trainerEvaluator, h]⟩
  · by_cases hf : rows.any (fun r => r.features.any (fun v => !v.isNumeric)) = true
    · exact ⟨TrainError.nonNumericFeature, by simp [trainerEvaluator, hf]⟩
    · exact ⟨TrainError.missingTarget, by simp [trainerEvaluator, hf, h]⟩

theorem c3_witness :
    ∃ e, trainerEvaluator (fun _ _ _ => ([], [])) (fun _ _ _ _ => [])
      [⟨[CellValue.str "galactic"], CellValue.num (1 / 2)⟩] (1 / 5) none 0
      = Except.error e :=
  c3_trainer_rejects_invalid (fun _ _ _ => ([], [])) (fun _ _ _ _ => [])
    [⟨[CellValue.str "galactic"], CellValue.num (1 / 2)⟩] (1 / 5) none 0
    (Or.inl (by decide))

/-- C7: with the seed, split proportion, data, algorithm and hyperparameters
fixed (`random_state=42`, `test_size=0.2` as in the notebook), two runs return
the identical validation MSE: the ambient entropy never enters. -/
theorem c7_training_deterministic
    (split : ℕ → ℚ → ℕ → List ℕ × List ℕ)
    (alg : List (List ℚ) → List ℚ → ℕ → List (List ℚ) → List ℚ)
    (rows : List RawTrainRow) (e1 e2 : ℕ) :
    run_training split alg rows e1 = run_training split alg rows e2 := rfl
